import Mathlib

/-!
Verification of the option-chain windowing and formatting logic of the
Options-analysis dashboard.

JavaScript numbers are modelled by `JsNum`: an idealized IEEE value that is
either NaN, +∞, -∞, or a finite rational.  Strike prices, which arrive from
JSON and are filtered for NaN at every call site before use, are modelled
directly as rationals.  `Option JsNum` models a JS value that may also be
`null`/`undefined` (collapsed to `none`; every code path treats the two
alike).
-/

/-- Idealized JavaScript number: NaN, the two infinities, or a finite
rational.  (-0 is identified with 0; no claim depends on signed zero.) -/
inductive JsNum where
  | nan
  | inf
  | ninf
  | fin (q : ℚ)
deriving DecidableEq, Repr

/-- Embed a rational as a (finite) JS number. -/
def jQ (q : ℚ) : JsNum := JsNum.fin q

/-- `Number.isFinite`. -/
def JsNum.isFinite : JsNum → Bool
  | .fin _ => true
  | _ => false

/-- JS truthiness of a number: `0` and `NaN` are falsy, everything else
(including the infinities) is truthy. -/
def JsNum.truthy : JsNum → Bool
  | .nan => false
  | .inf => true
  | .ninf => true
  | .fin q => decide (q ≠ 0)

/-- JS addition. -/
def jadd : JsNum → JsNum → JsNum
  | .nan, _ => .nan
  | _, .nan => .nan
  | .inf, .ninf => .nan
  | .ninf, .inf => .nan
  | .inf, _ => .inf
  | _, .inf => .inf
  | .ninf, _ => .ninf
  | _, .ninf => .ninf
  | .fin a, .fin b => .fin (a + b)

/-- JS subtraction. -/
def jsub : JsNum → JsNum → JsNum
  | .nan, _ => .nan
  | _, .nan => .nan
  | .inf, .inf => .nan
  | .inf, _ => .inf
  | .ninf, .ninf => .nan
  | .ninf, _ => .ninf
  | .fin _, .inf => .ninf
  | .fin _, .ninf => .inf
  | .fin a, .fin b => .fin (a - b)

/-- JS multiplication. -/
def jmul : JsNum → JsNum → JsNum
  | .nan, _ => .nan
  | _, .nan => .nan
  | .inf, .inf => .inf
  | .inf, .ninf => .ninf
  | .ninf, .inf => .ninf
  | .ninf, .ninf => .inf
  | .inf, .fin q => if q = 0 then .nan else if 0 < q then .inf else .ninf
  | .fin q, .inf => if q = 0 then .nan else if 0 < q then .inf else .ninf
  | .ninf, .fin q => if q = 0 then .nan else if 0 < q then .ninf else .inf
  | .fin q, .ninf => if q = 0 then .nan else if 0 < q then .ninf else .inf
  | .fin a, .fin b => .fin (a * b)

/-- JS division (division by zero yields a signed infinity, `0/0` is NaN). -/
def jdiv : JsNum → JsNum → JsNum
  | .nan, _ => .nan
  | _, .nan => .nan
  | .inf, .inf => .nan
  | .inf, .ninf => .nan
  | .ninf, .inf => .nan
  | .ninf, .ninf => .nan
  | .inf, .fin q => if 0 ≤ q then .inf else .ninf
  | .ninf, .fin q => if 0 ≤ q then .ninf else .inf
  | .fin _, .inf => .fin 0
  | .fin _, .ninf => .fin 0
  | .fin a, .fin b =>
      if b = 0 then (if a = 0 then .nan else if 0 < a then .inf else .ninf)
      else .fin (a / b)

/-- `Math.abs`. -/
def jabs : JsNum → JsNum
  | .nan => .nan
  | .inf => .inf
  | .ninf => .inf
  | .fin q => .fin |q|

/-- JS strict `<`: any comparison involving NaN is false. -/
def jlt : JsNum → JsNum → Bool
  | .nan, _ => false
  | _, .nan => false
  | .inf, _ => false
  | _, .inf => true
  | .ninf, .ninf => false
  | .ninf, _ => true
  | .fin _, .ninf => false
  | .fin a, .fin b => decide (a < b)

/-- JS `<=`: false whenever NaN is involved, otherwise the negation of the
reversed strict comparison. -/
def jle (a b : JsNum) : Bool :=
  match a, b with
  | .nan, _ => false
  | _, .nan => false
  | _, _ => !(jlt b a)

/-- `Math.round` (half toward positive infinity). -/
def jround : JsNum → JsNum
  | .nan => .nan
  | .inf => .inf
  | .ninf => .ninf
  | .fin q => .fin (⌊q + 1/2⌋ : ℤ)

/-- Per-option market/greek fields of one side of a chain row; each may be
`null`/`undefined` (`none`) or a JS number. -/
structure OptionSide where
  price : Option JsNum
  iv : Option JsNum
  delta : Option JsNum
  gamma : Option JsNum
  theta : Option JsNum
  vega : Option JsNum
  oi : Option JsNum
  chgOi : Option JsNum
deriving DecidableEq, Repr

/-- One row of the option chain: a strike with its call and put sides. -/
structure ChainRow where
  strike : ℚ
  call : OptionSide
  put : OptionSide
deriving DecidableEq, Repr

/-- A row holding only a strike, both sides empty (used for concrete
examples). -/
def mkRow (k : ℚ) : ChainRow :=
  ⟨k, ⟨none, none, none, none, none, none, none, none⟩,
      ⟨none, none, none, none, none, none, none, none⟩⟩

/-- The tie-keeping nearest-strike step: replace the current best `a` by the
candidate `b` only when `b` is strictly closer to `q`. -/
def pick (q a b : ℚ) : ℚ := if |b - q| < |a - q| then b else a

/-- The scan loop of `computeATM` (public/Js/dashboard.js): walk the
remaining strikes carrying the best strike and its distance to the spot,
replacing the best only on a JS strict `<` of distances. -/
def atmLoop (spot : JsNum) : List ℚ → ℚ → JsNum → ℚ
  | [], best, _ => best
  | s :: rest, best, bestDiff =>
      let d := jabs (jsub (jQ s) spot)
      if jlt d bestDiff then atmLoop spot rest s d
      else atmLoop spot rest best bestDiff

/-- `computeATM` from public/Js/dashboard.js: null on an empty strike list or
a spot that is not of JS number type (`typeof spot !== "number"`, modelled by
`none`); otherwise scan for the strike with strictly smallest `|strike -
spot|`, keeping the first on ties.  NaN *is* of number type in JS, so a NaN
spot passes the guard. -/
def computeATM (strikes : List ℚ) (spot : Option JsNum) : Option ℚ :=
  match strikes, spot with
  | [], _ => none
  | _, none => none
  | s :: rest, some sp => some (atmLoop sp rest s (jabs (jsub (jQ s) sp)))

/-- The view-selection step of `renderChain` (public/Js/dashboard.js lines
176-180): keep the full row list unless `showAll` is false, the ATM strike is
non-null and the step is finite, in which case keep the rows whose strike
lies in `[atm - win*step, atm + win*step]`. -/
def renderChainView (rows : List ChainRow) (showAll : Bool) (atm : Option ℚ)
    (step : JsNum) (win : ℚ) : List ChainRow :=
  match showAll, atm, step with
  | false, some a, .fin s =>
      rows.filter (fun r => decide (a - win * s ≤ r.strike) && decide (r.strike ≤ a + win * s))
  | _, _, _ => rows

/-- `centeredWindow` from public/js/dashboard.js: return the rows unchanged
when the list is empty, the spot is not finite, or the step is falsy;
otherwise find the ATM strike (first-on-ties scan from the head) and keep the
rows with strike in `[atm - win*step, atm + win*step]` under JS
comparisons. -/
def centeredWindow (rows : List ChainRow) (spot step : JsNum) (win : ℚ) : List ChainRow :=
  match rows, spot with
  | [], _ => []
  | r0 :: rest, .fin sq =>
      if step.truthy then
        let atm := (rest.map (fun r => r.strike)).foldl (pick sq) r0.strike
        let lo := jsub (jQ atm) (jmul (jQ win) step)
        let hi := jadd (jQ atm) (jmul (jQ win) step)
        (r0 :: rest).filter (fun r => jle lo (jQ r.strike) && jle (jQ r.strike) hi)
      else r0 :: rest
  | r0 :: rest, _ => r0 :: rest

/-- The row selection of `loadChain` (public/js/dashboard.js line 146): the
full chain when the full-chain box is checked, otherwise the centered
window. -/
def loadChainRows (chain : List ChainRow) (showFull : Bool) (spot step : JsNum)
    (win : ℚ) : List ChainRow :=
  if showFull then chain else centeredWindow chain spot step win

namespace Part005

/-- `centeredWindow` from src/unnamed/part_005: the guard tests JS
*truthiness* of both spot and step (`!spot || !step`), so 0 and NaN fail it;
the ATM strike is found by `reduce` over all strikes (first on ties) using JS
comparisons, and rows are kept when their strike lies between the JS-computed
bounds. -/
def centeredWindow (chain : List ChainRow) (spot step : JsNum) (win : ℚ) : List ChainRow :=
  match chain with
  | [] => []
  | c :: rest =>
      if spot.truthy && step.truthy then
        let strikes := (c :: rest).map (fun r => r.strike)
        let atm := strikes.foldl
          (fun a b => if jlt (jabs (jsub (jQ b) spot)) (jabs (jsub (jQ a) spot)) then b else a)
          c.strike
        let lo := jsub (jQ atm) (jmul (jQ win) step)
        let hi := jadd (jQ atm) (jmul (jQ win) step)
        (c :: rest).filter (fun r => jle lo (jQ r.strike) && jle (jQ r.strike) hi)
      else c :: rest

end Part005

namespace Part002

/-- `centeredWindow` from src/unnamed/part_002: same truthiness guard
(`!spot || !step`), ATM found by a for-loop comparing each strike's distance
against the current ATM's distance. -/
def centeredWindow (chain : List ChainRow) (spot step : JsNum) (win : ℚ) : List ChainRow :=
  match chain with
  | [] => []
  | c :: rest =>
      if spot.truthy && step.truthy then
        let strikes := (c :: rest).map (fun r => r.strike)
        let atm := strikes.foldl
          (fun a b => if jlt (jabs (jsub (jQ b) spot)) (jabs (jsub (jQ a) spot)) then b else a)
          c.strike
        let lo := jsub (jQ atm) (jmul (jQ win) step)
        let hi := jadd (jQ atm) (jmul (jQ win) step)
        (c :: rest).filter (fun r => jle lo (jQ r.strike) && jle (jQ r.strike) hi)
      else c :: rest

end Part002

namespace Part000

/-- `pickWindow` from src/unnamed/part_000: full chain when `full` is set or
spot/step are falsy (`!spot || !step`); otherwise the window is centred on
`Math.round(spot/step)*step` rather than on a listed strike. -/
def pickWindow (rows : List ChainRow) (spot step : JsNum) (win : ℚ) (full : Bool) :
    List ChainRow :=
  if full then rows
  else if spot.truthy && step.truthy then
    let center := jmul (jround (jdiv spot step)) step
    let lo := jsub center (jmul (jQ win) step)
    let hi := jadd center (jmul (jQ win) step)
    rows.filter (fun r => jle lo (jQ r.strike) && jle (jQ r.strike) hi)
  else rows

end Part000

/-! ### Number formatting

`toFixed` and `toLocaleString` are modelled over the idealized rationals:
rounding is half-away-from-zero on the magnitude (what `toFixed` specifies,
and `Intl`'s default `halfExpand`), digits are produced exactly. -/

/-- The decimal digit character for `n % 10`-sized values. -/
def digitChar (n : ℕ) : Char := Char.ofNat (48 + n)

/-- Decimal digits (most significant first) of a natural number, with fuel
for the well-founded division chain. -/
def natDigitsAux : ℕ → ℕ → List Char
  | 0, _ => []
  | fuel + 1, n =>
      if n < 10 then [digitChar n]
      else natDigitsAux fuel (n / 10) ++ [digitChar (n % 10)]

/-- Decimal digits (most significant first) of a natural number. -/
def natDigits (n : ℕ) : List Char := natDigitsAux (n + 1) n

/-- Exactly `d` decimal digits of `n` (little place values first padded with
leading zeros), most significant first. -/
def natDigitsPadded : ℕ → ℕ → List Char
  | 0, _ => []
  | d + 1, n => natDigitsPadded d (n / 10) ++ [digitChar (n % 10)]

/-- `toFixed(d)` on a finite value: sign, integer digits, and — when `d > 0` —
a point followed by exactly `d` fraction digits, rounding half away from
zero. -/
def toFixedStr (q : ℚ) (d : ℕ) : String :=
  String.mk
    (((if q < 0 then ['-'] else []) ++
        natDigits ((⌊|q| * (10 : ℚ) ^ d + 1/2⌋).toNat / 10 ^ d)) ++
      (if d = 0 then [] else
        '.' :: natDigitsPadded d ((⌊|q| * (10 : ℚ) ^ d + 1/2⌋).toNat % 10 ^ d)))

/-- `toFixed` on a JS number (`NaN.toFixed(2)` is `"NaN"`, infinities print
as themselves). -/
def jsToFixed : JsNum → ℕ → String
  | .nan, _ => "NaN"
  | .inf, _ => "Infinity"
  | .ninf, _ => "-Infinity"
  | .fin q, d => toFixedStr q d

/-- Digit groups of two (comma-separated) over a *reversed* digit list; used
after the initial group of three by the en-IN locale. -/
def pairsRev : List Char → List Char
  | [] => []
  | [a] => [a]
  | [a, b] => [a, b]
  | a :: b :: c :: rest => a :: b :: ',' :: pairsRev (c :: rest)

/-- en-IN digit grouping over a *reversed* digit list: three digits, then
groups of two. -/
def indianRev : List Char → List Char
  | [] => []
  | [a] => [a]
  | [a, b] => [a, b]
  | [a, b, c] => [a, b, c]
  | a :: b :: c :: d :: rest => a :: b :: c :: ',' :: pairsRev (d :: rest)

/-- Western digit grouping (groups of three) over a *reversed* digit list. -/
def groups3Rev : List Char → List Char
  | [] => []
  | [a] => [a]
  | [a, b] => [a, b]
  | [a, b, c] => [a, b, c]
  | a :: b :: c :: d :: rest => a :: b :: c :: ',' :: groups3Rev (d :: rest)

/-- The fractional part that `toLocaleString` prints for a scaled remainder
`fp` (at most the allowed digits, trailing zeros dropped; empty when the
value is integral at that precision). -/
def localeFrac (d fp : ℕ) : List Char :=
  let fr := ((natDigitsPadded d fp).reverse.dropWhile (fun c => c == '0')).reverse
  if fr.isEmpty then [] else '.' :: fr

/-- `toLocaleString("en-IN")` (default options: up to 3 fraction digits,
Indian digit grouping). -/
def toLocaleStringEnIN : JsNum → String
  | .nan => "NaN"
  | .inf => "∞"
  | .ninf => "-∞"
  | .fin q =>
      String.mk
        (((if q < 0 then ['-'] else []) ++
            (indianRev ((natDigits ((⌊|q| * 1000 + 1/2⌋).toNat / 1000)).reverse)).reverse) ++
          localeFrac 3 ((⌊|q| * 1000 + 1/2⌋).toNat % 1000))

/-- `toLocaleString(undefined, {maximumFractionDigits: d})` with a western
grouping locale. -/
def toLocaleStringWestern : JsNum → ℕ → String
  | .nan, _ => "NaN"
  | .inf, _ => "∞"
  | .ninf, _ => "-∞"
  | .fin q, d =>
      String.mk
        (((if q < 0 then ['-'] else []) ++
            (groups3Rev ((natDigits ((⌊|q| * (10 : ℚ) ^ d + 1/2⌋).toNat / 10 ^ d)).reverse)).reverse) ++
          localeFrac d ((⌊|q| * (10 : ℚ) ^ d + 1/2⌋).toNat % 10 ^ d))

/-- `fmt` from public/js/dashboard.js line 32: `null`/`undefined`/`NaN`
render as the em-dash, anything else as `Number(n).toFixed(d)` (the source's
default for `d` is 2; call sites supply it explicitly here). -/
def fmt (n : Option JsNum) (d : ℕ) : String :=
  match n with
  | none => "—"
  | some .nan => "—"
  | some v => jsToFixed v d

/-- `fint` from public/js/dashboard.js line 33: `null`/`undefined`/`NaN`
render as the em-dash, anything else as `Number(n).toLocaleString("en-IN")`. -/
def fint (n : Option JsNum) : String :=
  match n with
  | none => "—"
  | some .nan => "—"
  | some v => toLocaleStringEnIN v

namespace Part000

/-- `fmt` from src/unnamed/part_000 lines 172-175: only `null`/`undefined`
are replaced by the em-dash; every number — including NaN — is handed to
`toLocaleString`. -/
def fmt (n : Option JsNum) (digits : ℕ) : String :=
  match n with
  | none => "—"
  | some v => toLocaleStringWestern v digits

end Part000

/-- The sixteen formatted cells of one row of `renderRows`
(public/js/dashboard.js lines 96-119), in column order. -/
def renderRowCells (r : ChainRow) : List String :=
  [ fmt r.call.price 2, fmt r.call.iv 2, fmt r.call.delta 4, fmt r.call.gamma 6,
    fmt r.call.theta 2, fmt r.call.vega 2, fint r.call.oi, fint r.call.chgOi,
    fint (some (jQ r.strike)),
    fint r.put.chgOi, fint r.put.oi, fmt r.put.vega 2, fmt r.put.gamma 6,
    fmt r.put.delta 4, fmt r.put.iv 2, fmt r.put.price 2 ]

namespace Part005

/-- `fmt` from src/unnamed/part_005 line 37 (same null/NaN handling as the
main dashboard's). -/
def fmt (n : Option JsNum) (d : ℕ) : String :=
  match n with
  | none => "—"
  | some .nan => "—"
  | some v => jsToFixed v d

/-- `int` from src/unnamed/part_005 line 38. -/
def int (n : Option JsNum) : String :=
  match n with
  | none => "—"
  | some .nan => "—"
  | some v => toLocaleStringEnIN v

/-- The sixteen formatted cells of one row of `renderRows`
(src/unnamed/part_005 lines 94-119), in column order; note theta is printed
with 4 decimals here. -/
def renderRowCells (r : ChainRow) : List String :=
  [ fmt r.call.price 2, fmt r.call.iv 2, fmt r.call.delta 4, fmt r.call.gamma 6,
    fmt r.call.theta 4, fmt r.call.vega 2, int r.call.oi, int r.call.chgOi,
    int (some (jQ r.strike)),
    int r.put.chgOi, int r.put.oi, fmt r.put.vega 2, fmt r.put.gamma 6,
    fmt r.put.delta 4, fmt r.put.iv 2, fmt r.put.price 2 ]

end Part005

/-- Number of characters after the decimal point of a rendered number (0 when
there is no point). -/
def fracDigits (s : String) : ℕ :=
  if '.' ∈ s.data then (s.data.reverse.takeWhile (fun c => c != '.')).length else 0

/-! ### Lemmas about the ATM scan -/

theorem jlt_left_false (sp : JsNum) (hsp : sp = .nan ∨ sp = .inf) :
    ∀ d : JsNum, jlt sp d = false := by
  rcases hsp with rfl | rfl <;> intro d <;> cases d <;> rfl

/-- The fold that the ATM scan performs on a finite spot, characterized: the
result is either the seed (nothing strictly closer was seen) or the first
listed strike strictly closer than the seed and not beaten later. -/
theorem foldl_pick_spec (q : ℚ) (l : List ℚ) : ∀ b : ℚ,
    (l.foldl (pick q) b = b ∧ ∀ s ∈ l, |b - q| ≤ |s - q|) ∨
    (∃ i : ℕ, ∃ hi : i < l.length,
      l.foldl (pick q) b = l[i] ∧
      |l[i] - q| < |b - q| ∧
      (∀ s ∈ l, |l[i] - q| ≤ |s - q|) ∧
      ∀ j : ℕ, ∀ hj : j < l.length, j < i → |l[i] - q| < |l[j] - q|) := by
  induction l with
  | nil =>
      intro b
      exact Or.inl ⟨rfl, by simp⟩
  | cons x xs ih =>
      intro b
      rw [List.foldl_cons]
      by_cases hx : |x - q| < |b - q|
      · rw [show pick q b x = x from if_pos hx]
        rcases ih x with ⟨heq, hmin⟩ | ⟨i, hi, heq, hlt, hmin, hfirst⟩
        · refine Or.inr ⟨0, by simp, ?_, ?_, ?_, ?_⟩
          · simpa using heq
          · simpa using hx
          · intro s hs
            rcases List.mem_cons.mp hs with rfl | hs
            · simp
            · simpa using hmin s hs
          · intro j hj hj0
            omega
        · refine Or.inr ⟨i + 1, by simpa using Nat.succ_lt_succ hi, ?_, ?_, ?_, ?_⟩
          · simpa using heq
          · have := hlt.trans hx
            simpa using this
          · intro s hs
            rcases List.mem_cons.mp hs with rfl | hs
            · simpa using hlt.le
            · simpa using hmin s hs
          · intro j hj hjlt
            match j, hj with
            | 0, _ => simpa using hlt
            | j' + 1, hj =>
                have hj' : j' < xs.length := by simpa using hj
                have := hfirst j' hj' (by omega)
                simpa using this
      · rw [show pick q b x = b from if_neg hx]
        have hbx : |b - q| ≤ |x - q| := le_of_not_lt hx
        rcases ih b with ⟨heq, hmin⟩ | ⟨i, hi, heq, hlt, hmin, hfirst⟩
        · refine Or.inl ⟨heq, ?_⟩
          intro s hs
          rcases List.mem_cons.mp hs with rfl | hs
          · exact hbx
          · exact hmin s hs
        · refine Or.inr ⟨i + 1, by simpa using Nat.succ_lt_succ hi, ?_, ?_, ?_, ?_⟩
          · simpa using heq
          · simpa using hlt
          · intro s hs
            rcases List.mem_cons.mp hs with rfl | hs
            · simpa using (hlt.trans_le hbx).le
            · simpa using hmin s hs
          · intro j hj hjlt
            match j, hj with
            | 0, _ => simpa using hlt.trans_le hbx
            | j' + 1, hj =>
                have hj' : j' < xs.length := by simpa using hj
                have := hfirst j' hj' (by omega)
                simpa using this

/-- On a finite spot the JS scan loop is the rational fold. -/
theorem atmLoop_foldl (q : ℚ) (l : List ℚ) : ∀ b : ℚ,
    atmLoop (.fin q) l b (.fin |b - q|) = l.foldl (pick q) b := by
  induction l with
  | nil => intro b; rfl
  | cons x xs ih =>
      intro b
      rw [List.foldl_cons]
      simp only [atmLoop, jQ, jsub, jabs, jlt]
      by_cases h : |x - q| < |b - q|
      · simp [h, pick, ih]
      · simp [h, pick, ih]

/-- When every candidate distance compares false (NaN or +∞ on the left of
`<`), the scan keeps its seed whatever the carried distance is. -/
theorem atmLoop_keep (sp : JsNum)
    (hsp : ∀ x : ℚ, ∀ d : JsNum, jlt (jabs (jsub (jQ x) sp)) d = false) :
    ∀ (l : List ℚ) (b : ℚ) (d : JsNum), atmLoop sp l b d = b := by
  intro l
  induction l with
  | nil => intro b d; rfl
  | cons x xs ih => intro b d; simp [atmLoop, hsp x d, ih]

/-- C1. For every non-empty strike list and finite spot, `computeATM` returns
the strike at the least index minimizing `|strike - spot|`: the result is an
element of the list, no listed strike is strictly closer, and every strike at
an earlier index is strictly farther (ties resolve to the first encountered,
by the strict `<` comparison). -/
theorem computeATM_nearest (strikes : List ℚ) (q : ℚ) (h : strikes ≠ []) :
    ∃ i : ℕ, ∃ hi : i < strikes.length,
      computeATM strikes (some (.fin q)) = some (strikes[i]) ∧
      (∀ j : ℕ, ∀ hj : j < strikes.length, |strikes[i] - q| ≤ |strikes[j] - q|) ∧
      (∀ j : ℕ, ∀ hj : j < strikes.length, j < i → |strikes[i] - q| < |strikes[j] - q|) := by
  match strikes, h with
  | s :: rest, _ =>
    have hbridge : computeATM (s :: rest) (some (.fin q))
        = some (rest.foldl (pick q) s) := by
      show some (atmLoop (.fin q) rest s (jabs (jsub (jQ s) (.fin q)))) = _
      rw [show jabs (jsub (jQ s) (.fin q)) = .fin |s - q| from rfl, atmLoop_foldl]
    rcases foldl_pick_spec q rest s with ⟨heq, hmin⟩ | ⟨i, hi, heq, hlt, hmin, hfirst⟩
    · refine ⟨0, by simp, ?_, ?_, ?_⟩
      · rw [hbridge, heq]; simp
      · intro j hj
        match j, hj with
        | 0, _ => simp
        | j' + 1, hj =>
            have hj' : j' < rest.length := by simpa using hj
            have := hmin rest[j'] (List.getElem_mem hj')
            simpa using this
      · intro j hj hj0
        omega
    · refine ⟨i + 1, by simpa using Nat.succ_lt_succ hi, ?_, ?_, ?_⟩
      · rw [hbridge, heq]; simp
      · intro j hj
        match j, hj with
        | 0, _ => simpa using hlt.le
        | j' + 1, hj =>
            have hj' : j' < rest.length := by simpa using hj
            have := hmin rest[j'] (List.getElem_mem hj')
            simpa using this
      · intro j hj hjlt
        match j, hj with
        | 0, _ => simpa using hlt
        | j' + 1, hj =>
            have hj' : j' < rest.length := by simpa using hj
            have := hfirst j' hj' (by omega)
            simpa using this

/-- Witness for C1 at the concrete list `[1, 2]` and spot `0`. -/
theorem computeATM_nearest_witness :
    ∃ i : ℕ, ∃ hi : i < [(1 : ℚ), 2].length,
      computeATM [(1 : ℚ), 2] (some (.fin 0)) = some ([(1 : ℚ), 2][i]) ∧
      (∀ j : ℕ, ∀ hj : j < [(1 : ℚ), 2].length,
        |[(1 : ℚ), 2][i] - 0| ≤ |[(1 : ℚ), 2][j] - 0|) ∧
      (∀ j : ℕ, ∀ hj : j < [(1 : ℚ), 2].length, j < i →
        |[(1 : ℚ), 2][i] - 0| < |[(1 : ℚ), 2][j] - 0|) :=
  computeATM_nearest [1, 2] 0 (by decide)

/-- C2. With `showFull = false`, a non-null ATM strike `a` and a finite step
`s`, the window selector returns an order-preserving sub-list of its input,
and a row of the input is kept exactly when its strike lies in
`[a - w*s, a + w*s]`, both bounds inclusive. -/
theorem renderChainView_window (rows : List ChainRow) (a s w : ℚ) :
    List.Sublist (renderChainView rows false (some a) (.fin s) w) rows ∧
    (∀ r ∈ renderChainView rows false (some a) (.fin s) w,
        a - w * s ≤ r.strike ∧ r.strike ≤ a + w * s) ∧
    (∀ r ∈ rows,
        (a - w * s ≤ r.strike ∧ r.strike ≤ a + w * s) →
          r ∈ renderChainView rows false (some a) (.fin s) w) := by
  have hdef : renderChainView rows false (some a) (.fin s) w
      = rows.filter (fun r => decide (a - w * s ≤ r.strike) && decide (r.strike ≤ a + w * s)) := rfl
  refine ⟨hdef ▸ List.filter_sublist rows, ?_, ?_⟩
  · intro r hr
    rw [hdef, List.mem_filter] at hr
    simpa using hr.2
  · intro r hr hb
    rw [hdef, List.mem_filter]
    exact ⟨hr, by simpa using hb⟩

/-- Witness for C2 at a two-row chain, ATM 100, step 50, half-width 1. -/
theorem renderChainView_window_witness :
    List.Sublist (renderChainView [mkRow 100, mkRow 1000] false (some 100) (.fin 50) 1)
      [mkRow 100, mkRow 1000] ∧
    (∀ r ∈ renderChainView [mkRow 100, mkRow 1000] false (some 100) (.fin 50) 1,
        (100 : ℚ) - 1 * 50 ≤ r.strike ∧ r.strike ≤ 100 + 1 * 50) ∧
    (∀ r ∈ [mkRow 100, mkRow 1000],
        ((100 : ℚ) - 1 * 50 ≤ r.strike ∧ r.strike ≤ 100 + 1 * 50) →
          r ∈ renderChainView [mkRow 100, mkRow 1000] false (some 100) (.fin 50) 1) :=
  renderChainView_window [mkRow 100, mkRow 1000] 100 50 1

/-- C3. With the full-chain flag set, both the `loadChain` row selection and
the `renderChain` view selection return the input chain unchanged, whatever
the spot, ATM, step and window size are. -/
theorem showFull_identity (chain rows : List ChainRow) (atm : Option ℚ)
    (spot step : JsNum) (win : ℚ) :
    loadChainRows chain true spot step win = chain ∧
    renderChainView rows true atm step win = rows := by
  constructor
  · rfl
  · cases atm <;> cases step <;> rfl

/-- C5. With `showFull = false`, a null ATM strike or a non-finite step makes
the view selection degrade to the full input chain (fail-open). -/
theorem renderChainView_failOpen (rows : List ChainRow) (atm : Option ℚ)
    (step : JsNum) (win : ℚ) (h : atm = none ∨ step.isFinite = false) :
    renderChainView rows false atm step win = rows := by
  rcases h with h | h
  · subst h; cases step <;> rfl
  · cases step with
    | fin q => simp [JsNum.isFinite] at h
    | nan => cases atm <;> rfl
    | inf => cases atm <;> rfl
    | ninf => cases atm <;> rfl

/-- Witness for C5: a one-row chain, null ATM (empty strike list), NaN step. -/
theorem renderChainView_failOpen_witness :
    renderChainView [mkRow 1] false none .nan 1 = [mkRow 1] :=
  renderChainView_failOpen [mkRow 1] none .nan 1 (Or.inl rfl)

/-- C6. On strikes `[24700, 24750, 24800, 24850, 24900]` with spot `24810`,
step `50` and half-width `1`: the ATM locator returns `24800`, and both
window selectors return exactly the rows with strikes
`[24750, 24800, 24850]`, in order. -/
theorem example_chain_24810 :
    computeATM [24700, 24750, 24800, 24850, 24900] (some (.fin 24810)) = some 24800 ∧
    centeredWindow [mkRow 24700, mkRow 24750, mkRow 24800, mkRow 24850, mkRow 24900]
        (.fin 24810) (.fin 50) 1 = [mkRow 24750, mkRow 24800, mkRow 24850] ∧
    renderChainView [mkRow 24700, mkRow 24750, mkRow 24800, mkRow 24850, mkRow 24900]
        false (some 24800) (.fin 50) 1 = [mkRow 24750, mkRow 24800, mkRow 24850] := by
  refine ⟨?_, ?_, ?_⟩
  · show some (atmLoop (JsNum.fin 24810) [24750, 24800, 24850, 24900] 24700
      (jabs (jsub (jQ 24700) (JsNum.fin 24810)))) = some 24800
    rw [show jabs (jsub (jQ 24700) (JsNum.fin 24810)) = JsNum.fin |24700 - 24810| from rfl,
      atmLoop_foldl]
    norm_num [pick, List.foldl_cons, List.foldl_nil, abs]
  · simp only [centeredWindow, JsNum.truthy, List.map_cons, List.map_nil, mkRow]
    norm_num [pick, List.foldl_cons, List.foldl_nil, jQ, jsub, jadd, jmul, jle, jlt,
      List.filter_cons, List.filter_nil, abs, mkRow]
  · simp only [renderChainView]
    norm_num [List.filter_cons, List.filter_nil, mkRow]

/-- C4 counterexample. The claim says a non-finite spot always yields null,
but `computeATM`'s guard is `typeof spot !== "number"` and NaN *is* a number:
on strikes `[100]` with a NaN spot the locator returns `100`, not null. -/
theorem computeATM_nan_counterexample :
    computeATM [(100 : ℚ)] (some .nan) = some 100 ∧
    computeATM [(100 : ℚ)] (some .nan) ≠ none := by
  constructor
  · rfl
  · intro h
    exact Option.noConfusion h

/-- C4 amended. `computeATM` returns null exactly when the strike list is
empty or the spot is not of JS number type (null/undefined/non-number); for a
NaN or infinite spot — which passes the `typeof` guard — and a non-empty list
it returns the *first* strike, because every distance comparison against NaN
or +∞ is false. -/
theorem computeATM_null_caseAnalysis :
    (∀ (strikes : List ℚ) (spot : Option JsNum),
        computeATM strikes spot = none ↔ strikes = [] ∨ spot = none) ∧
    (∀ (s : ℚ) (rest : List ℚ),
        computeATM (s :: rest) (some .nan) = some s ∧
        computeATM (s :: rest) (some .inf) = some s ∧
        computeATM (s :: rest) (some .ninf) = some s) := by
  constructor
  · intro strikes spot
    constructor
    · intro h
      match strikes, spot with
      | [], _ => exact Or.inl rfl
      | _ :: _, none => exact Or.inr rfl
      | _ :: _, some sp => exact Option.noConfusion h
    · intro h
      rcases h with rfl | rfl
      · cases spot <;> rfl
      · cases strikes <;> rfl
  · intro s rest
    refine ⟨?_, ?_, ?_⟩
    · show some (atmLoop .nan rest s (jabs (jsub (jQ s) .nan))) = some s
      rw [atmLoop_keep .nan (fun x d => jlt_left_false _ (Or.inl rfl) d)]
    · show some (atmLoop .inf rest s (jabs (jsub (jQ s) .inf))) = some s
      rw [atmLoop_keep .inf (fun x d => jlt_left_false _ (Or.inr rfl) d)]
    · show some (atmLoop .ninf rest s (jabs (jsub (jQ s) .ninf))) = some s
      rw [atmLoop_keep .ninf (fun x d => jlt_left_false _ (Or.inr rfl) d)]

/-- Witness for C4's amended statement at concrete inputs. -/
theorem computeATM_null_caseAnalysis_witness :
    (computeATM [(1 : ℚ)] none = none ↔ [(1 : ℚ)] = [] ∨ (none : Option JsNum) = none) ∧
    (computeATM [(7 : ℚ), 9] (some .nan) = some 7 ∧
      computeATM [(7 : ℚ), 9] (some .inf) = some 7 ∧
      computeATM [(7 : ℚ), 9] (some .ninf) = some 7) :=
  ⟨computeATM_null_caseAnalysis.1 [1] none, computeATM_null_caseAnalysis.2 7 [9]⟩

/-! ### Window selection is always an order-preserving subsequence -/

theorem renderChainView_sublist (rows : List ChainRow) (showAll : Bool) (atm : Option ℚ)
    (step : JsNum) (win : ℚ) :
    List.Sublist (renderChainView rows showAll atm step win) rows := by
  cases showAll <;> cases atm <;> cases step <;>
    first
      | exact List.filter_sublist _
      | exact List.Sublist.refl _

theorem centeredWindow_sublist (rows : List ChainRow) (spot step : JsNum) (win : ℚ) :
    List.Sublist (centeredWindow rows spot step win) rows := by
  cases rows with
  | nil => cases spot <;> exact List.Sublist.refl _
  | cons r0 rest =>
      cases spot with
      | fin sq =>
          simp only [centeredWindow]
          split
          · exact List.filter_sublist _
          · exact List.Sublist.refl _
      | nan => exact List.Sublist.refl _
      | inf => exact List.Sublist.refl _
      | ninf => exact List.Sublist.refl _

theorem part005_centeredWindow_sublist (chain : List ChainRow) (spot step : JsNum) (win : ℚ) :
    List.Sublist (Part005.centeredWindow chain spot step win) chain := by
  cases chain with
  | nil => exact List.Sublist.refl _
  | cons c rest =>
      simp only [Part005.centeredWindow]
      split
      · exact List.filter_sublist _
      · exact List.Sublist.refl _

/-- C9. Every deployed window selector returns an order-preserving
subsequence of its input (so each output row occurs in the input, relative
order is kept, and no row is duplicated if the input had no duplicates);
consequently a chain sorted ascending by strike stays sorted. -/
theorem window_subsequence (rows : List ChainRow) (showAll : Bool) (atm : Option ℚ)
    (spot step : JsNum) (win : ℚ) :
    List.Sublist (renderChainView rows showAll atm step win) rows ∧
    List.Sublist (centeredWindow rows spot step win) rows ∧
    List.Sublist (Part005.centeredWindow rows spot step win) rows ∧
    (List.Pairwise (fun r₁ r₂ => r₁.strike ≤ r₂.strike) rows →
      List.Pairwise (fun r₁ r₂ => r₁.strike ≤ r₂.strike)
          (renderChainView rows showAll atm step win) ∧
      List.Pairwise (fun r₁ r₂ => r₁.strike ≤ r₂.strike)
          (centeredWindow rows spot step win) ∧
      List.Pairwise (fun r₁ r₂ => r₁.strike ≤ r₂.strike)
          (Part005.centeredWindow rows spot step win)) ∧
    (rows.Nodup →
      (renderChainView rows showAll atm step win).Nodup ∧
      (centeredWindow rows spot step win).Nodup ∧
      (Part005.centeredWindow rows spot step win).Nodup) := by
  refine ⟨renderChainView_sublist rows showAll atm step win,
    centeredWindow_sublist rows spot step win,
    part005_centeredWindow_sublist rows spot step win, ?_, ?_⟩
  · intro hs
    exact ⟨hs.sublist (renderChainView_sublist rows showAll atm step win),
      hs.sublist (centeredWindow_sublist rows spot step win),
      hs.sublist (part005_centeredWindow_sublist rows spot step win)⟩
  · intro hn
    exact ⟨hn.sublist (renderChainView_sublist rows showAll atm step win),
      hn.sublist (centeredWindow_sublist rows spot step win),
      hn.sublist (part005_centeredWindow_sublist rows spot step win)⟩

/-- Witness for C9 on a concrete sorted, duplicate-free two-row chain. -/
theorem window_subsequence_witness :
    (List.Pairwise (fun r₁ r₂ => r₁.strike ≤ r₂.strike)
        (renderChainView [mkRow 1, mkRow 2] false (some 1) (.fin 1) 1) ∧
      List.Pairwise (fun r₁ r₂ => r₁.strike ≤ r₂.strike)
        (centeredWindow [mkRow 1, mkRow 2] (.fin 1) (.fin 1) 1) ∧
      List.Pairwise (fun r₁ r₂ => r₁.strike ≤ r₂.strike)
        (Part005.centeredWindow [mkRow 1, mkRow 2] (.fin 1) (.fin 1) 1)) ∧
    ((renderChainView [mkRow 1, mkRow 2] false (some 1) (.fin 1) 1).Nodup ∧
      (centeredWindow [mkRow 1, mkRow 2] (.fin 1) (.fin 1) 1).Nodup ∧
      (Part005.centeredWindow [mkRow 1, mkRow 2] (.fin 1) (.fin 1) 1).Nodup) := by
  have hs : List.Pairwise (fun r₁ r₂ : ChainRow => r₁.strike ≤ r₂.strike)
      [mkRow 1, mkRow 2] := by
    norm_num [List.pairwise_cons, mkRow]
  have hn : List.Nodup [mkRow 1, mkRow 2] := by
    norm_num [List.nodup_cons, mkRow]
  exact ⟨(window_subsequence [mkRow 1, mkRow 2] false (some 1) (.fin 1) (.fin 1) 1).2.2.2.1 hs,
    (window_subsequence [mkRow 1, mkRow 2] false (some 1) (.fin 1) (.fin 1) 1).2.2.2.2 hn⟩

/-- C10 counterexample. In the public/js `centeredWindow` the spot guard
tests *finiteness*, not truthiness: with spot exactly 0 (and a truthy step)
the ATM-centered window *is* computed — the full chain is not returned. -/
theorem centeredWindow_spotZero_counterexample :
    centeredWindow [mkRow 0, mkRow 1000] (.fin 0) (.fin 50) 1 = [mkRow 0] ∧
    centeredWindow [mkRow 0, mkRow 1000] (.fin 0) (.fin 50) 1 ≠ [mkRow 0, mkRow 1000] := by
  have h : centeredWindow [mkRow 0, mkRow 1000] (.fin 0) (.fin 50) 1 = [mkRow 0] := by
    simp only [centeredWindow, JsNum.truthy, List.map_cons, List.map_nil, mkRow]
    norm_num [pick, List.foldl_cons, List.foldl_nil, jQ, jsub, jadd, jmul, jle, jlt,
      List.filter_cons, List.filter_nil]
  refine ⟨h, ?_⟩
  rw [h]
  intro hc
  exact absurd (congrArg List.length hc) (by norm_num)

/-- C10 amended. In the part_005, part_002 and part_000 variants the
degenerate-input guard tests truthiness of both spot and step, so a spot of
exactly 0 or a step of exactly 0 returns the full chain unchanged; in the
public/js variant the spot is tested for finiteness (a zero spot is windowed
normally — see the counterexample) but the step is truthiness-tested, so a
zero step still returns the full chain. -/
theorem truthiness_guard_zero (chain rows : List ChainRow) (spot step : JsNum) (win : ℚ) :
    Part005.centeredWindow chain (.fin 0) step win = chain ∧
    Part005.centeredWindow chain spot (.fin 0) win = chain ∧
    Part002.centeredWindow chain (.fin 0) step win = chain ∧
    Part002.centeredWindow chain spot (.fin 0) win = chain ∧
    Part000.pickWindow rows (.fin 0) step win false = rows ∧
    Part000.pickWindow rows spot (.fin 0) win false = rows ∧
    centeredWindow rows spot (.fin 0) win = rows := by
  refine ⟨?_, ?_, ?_, ?_, ?_, ?_, ?_⟩
  · cases chain with
    | nil => rfl
    | cons c rest => simp [Part005.centeredWindow, JsNum.truthy]
  · cases chain with
    | nil => rfl
    | cons c rest => simp [Part005.centeredWindow, JsNum.truthy]
  · cases chain with
    | nil => rfl
    | cons c rest => simp [Part002.centeredWindow, JsNum.truthy]
  · cases chain with
    | nil => rfl
    | cons c rest => simp [Part002.centeredWindow, JsNum.truthy]
  · simp [Part000.pickWindow, JsNum.truthy]
  · simp [Part000.pickWindow, JsNum.truthy]
  · cases rows with
    | nil => cases spot <;> rfl
    | cons r0 rest =>
        cases spot with
        | fin sq => simp [centeredWindow, JsNum.truthy]
        | nan => rfl
        | inf => rfl
        | ninf => rfl

/-- Witness for C10's amended statement at concrete inputs. -/
theorem truthiness_guard_zero_witness :
    Part005.centeredWindow [mkRow 5] (.fin 0) (.fin 50) 2 = [mkRow 5] ∧
    Part005.centeredWindow [mkRow 5] (.fin 7) (.fin 0) 2 = [mkRow 5] ∧
    Part002.centeredWindow [mkRow 5] (.fin 0) (.fin 50) 2 = [mkRow 5] ∧
    Part002.centeredWindow [mkRow 5] (.fin 7) (.fin 0) 2 = [mkRow 5] ∧
    Part000.pickWindow [mkRow 5] (.fin 0) (.fin 50) 2 false = [mkRow 5] ∧
    Part000.pickWindow [mkRow 5] (.fin 7) (.fin 0) 2 false = [mkRow 5] ∧
    centeredWindow [mkRow 5] (.fin 7) (.fin 0) 2 = [mkRow 5] :=
  truthiness_guard_zero [mkRow 5] [mkRow 5] (.fin 7) (.fin 50) 2

/-! ### Lemmas about rendered digit strings -/

theorem natDigitsPadded_length (d : ℕ) : ∀ n : ℕ, (natDigitsPadded d n).length = d := by
  induction d with
  | zero => intro n; rfl
  | succ d ih => intro n; simp [natDigitsPadded, ih]

theorem digitChar_ne_dot (k : ℕ) (hk : k < 10) : digitChar k ≠ '.' := by
  interval_cases k <;> decide

theorem mem_natDigitsPadded_ne_dot (d : ℕ) : ∀ n : ℕ, ∀ c ∈ natDigitsPadded d n, c ≠ '.' := by
  induction d with
  | zero => intro n; simp [natDigitsPadded]
  | succ d ih =>
      intro n c hc
      simp only [natDigitsPadded, List.mem_append, List.mem_singleton] at hc
      rcases hc with hc | rfl
      · exact ih _ c hc
      · exact digitChar_ne_dot _ (Nat.mod_lt _ (by norm_num))

theorem mem_natDigitsAux_ne_dot (fuel : ℕ) : ∀ n : ℕ, ∀ c ∈ natDigitsAux fuel n, c ≠ '.' := by
  induction fuel with
  | zero => intro n; simp [natDigitsAux]
  | succ fuel ih =>
      intro n c hc
      simp only [natDigitsAux] at hc
      split at hc
      · next h =>
          rw [List.mem_singleton] at hc
          subst hc
          exact digitChar_ne_dot n h
      · next h =>
          simp only [List.mem_append, List.mem_singleton] at hc
          rcases hc with hc | rfl
          · exact ih _ c hc
          · exact digitChar_ne_dot _ (Nat.mod_lt _ (by norm_num))

theorem mem_natDigits_ne_dot (n : ℕ) : ∀ c ∈ natDigits n, c ≠ '.' :=
  mem_natDigitsAux_ne_dot _ _

theorem takeWhile_all_append {α : Type} (p : α → Bool) (l₁ l₂ : List α) (c : α)
    (h₁ : ∀ x ∈ l₁, p x = true) (hc : p c = false) :
    List.takeWhile p (l₁ ++ c :: l₂) = l₁ := by
  induction l₁ with
  | nil => simp [List.takeWhile_cons, hc]
  | cons a l ih =>
      simp only [List.cons_append, List.takeWhile_cons, h₁ a (List.mem_cons_self a l),
        if_true]
      rw [ih (fun x hx => h₁ x (List.mem_cons_of_mem a hx))]

theorem fracDigits_append_dot (pre frac : List Char) (hfrac : ∀ c ∈ frac, c ≠ '.') :
    fracDigits (String.mk (pre ++ '.' :: frac)) = frac.length := by
  unfold fracDigits
  rw [if_pos (by simp : '.' ∈ (String.mk (pre ++ '.' :: frac)).data)]
  show ((pre ++ '.' :: frac).reverse.takeWhile (fun c => c != '.')).length = frac.length
  rw [List.reverse_append, List.reverse_cons, List.append_assoc, List.singleton_append]
  rw [takeWhile_all_append _ _ _ _
    (fun x hx => by simpa using hfrac x (List.mem_reverse.mp hx)) (by decide)]
  exact List.length_reverse frac

theorem fracDigits_no_dot (l : List Char) (h : '.' ∉ l) : fracDigits (String.mk l) = 0 := by
  unfold fracDigits
  exact if_neg h

theorem fracDigits_toFixedStr (q : ℚ) (d : ℕ) (hd : 0 < d) :
    fracDigits (toFixedStr q d) = d := by
  unfold toFixedStr
  rw [show (if d = 0 then ([] : List Char)
        else '.' :: natDigitsPadded d ((⌊|q| * (10 : ℚ) ^ d + 1/2⌋).toNat % 10 ^ d))
      = '.' :: natDigitsPadded d ((⌊|q| * (10 : ℚ) ^ d + 1/2⌋).toNat % 10 ^ d)
    from if_neg hd.ne']
  rw [fracDigits_append_dot _ _ (mem_natDigitsPadded_ne_dot d _)]
  exact natDigitsPadded_length d _

theorem mem_pairsRev (l : List Char) : ∀ c ∈ pairsRev l, c ∈ l ∨ c = ',' := by
  induction l using pairsRev.induct with
  | case1 => simp [pairsRev]
  | case2 a => simp [pairsRev]
  | case3 a b => simp [pairsRev]
  | case4 a b c rest ih =>
      intro x hx
      simp only [pairsRev, List.mem_cons] at hx ⊢
      rcases hx with rfl | rfl | rfl | hx
      · exact Or.inl (Or.inl rfl)
      · exact Or.inl (Or.inr (Or.inl rfl))
      · exact Or.inr rfl
      · rcases ih x hx with hx | rfl
        · rcases List.mem_cons.mp hx with rfl | hx
          · exact Or.inl (Or.inr (Or.inr (Or.inl rfl)))
          · exact Or.inl (Or.inr (Or.inr (Or.inr hx)))
        · exact Or.inr rfl

theorem mem_indianRev (l : List Char) : ∀ c ∈ indianRev l, c ∈ l ∨ c = ',' := by
  match l with
  | [] => simp [indianRev]
  | [a] => simp [indianRev]
  | [a, b] => simp [indianRev]
  | [a, b, c] => simp [indianRev]
  | a :: b :: c :: d :: rest =>
      intro x hx
      simp only [indianRev, List.mem_cons] at hx ⊢
      rcases hx with rfl | rfl | rfl | rfl | hx
      · exact Or.inl (Or.inl rfl)
      · exact Or.inl (Or.inr (Or.inl rfl))
      · exact Or.inl (Or.inr (Or.inr (Or.inl rfl)))
      · exact Or.inr rfl
      · rcases mem_pairsRev _ x hx with hx | rfl
        · exact Or.inl (Or.inr (Or.inr (Or.inr (List.mem_cons.mp hx))))
        · exact Or.inr rfl

/-- An integer value has no fractional part under the en-IN locale
rendering. -/
theorem fracDigits_enIN_int (z : ℤ) :
    fracDigits (toLocaleStringEnIN (.fin (z : ℚ))) = 0 := by
  have habs : |(z : ℚ)| = ((z.natAbs : ℕ) : ℚ) := by
    rw [Int.cast_natAbs]
    push_cast
    rfl
  have hfloor : ⌊|(z : ℚ)| * 1000 + 1/2⌋ = ((z.natAbs * 1000 : ℕ) : ℤ) := by
    rw [habs, Int.floor_eq_iff]
    constructor
    · push_cast
      linarith
    · push_cast
      linarith
  have hfp : (⌊|(z : ℚ)| * 1000 + 1/2⌋).toNat % 1000 = 0 := by
    rw [hfloor, Int.toNat_natCast]
    exact Nat.mul_mod_left _ _
  simp only [toLocaleStringEnIN]
  rw [hfp]
  rw [show localeFrac 3 0 = [] from rfl, List.append_nil]
  apply fracDigits_no_dot
  intro hdot
  rcases List.mem_append.mp hdot with hdot | hdot
  · split at hdot
    · rw [List.mem_singleton] at hdot
      exact absurd hdot (by decide)
    · exact absurd hdot (List.not_mem_nil _)
  · rcases mem_indianRev _ _ (List.mem_reverse.mp hdot) with hdot | hdot
    · exact mem_natDigits_ne_dot _ _ (List.mem_reverse.mp hdot) rfl
    · exact absurd hdot (by decide)

theorem fracDigits_fmt_two (q : ℚ) : fracDigits (fmt (some (.fin q)) 2) = 2 :=
  fracDigits_toFixedStr q 2 (by norm_num)

theorem fracDigits_fmt_four (q : ℚ) : fracDigits (fmt (some (.fin q)) 4) = 4 :=
  fracDigits_toFixedStr q 4 (by norm_num)

theorem fracDigits_fmt_six (q : ℚ) : fracDigits (fmt (some (.fin q)) 6) = 6 :=
  fracDigits_toFixedStr q 6 (by norm_num)

theorem fracDigits_fint_int (z : ℤ) : fracDigits (fint (some (.fin (z : ℚ)))) = 0 :=
  fracDigits_enIN_int z

theorem fracDigits_fmt05_two (q : ℚ) : fracDigits (Part005.fmt (some (.fin q)) 2) = 2 :=
  fracDigits_toFixedStr q 2 (by norm_num)

theorem fracDigits_fmt05_four (q : ℚ) : fracDigits (Part005.fmt (some (.fin q)) 4) = 4 :=
  fracDigits_toFixedStr q 4 (by norm_num)

theorem fracDigits_fmt05_six (q : ℚ) : fracDigits (Part005.fmt (some (.fin q)) 6) = 6 :=
  fracDigits_toFixedStr q 6 (by norm_num)

theorem fracDigits_int05_int (z : ℤ) : fracDigits (Part005.int (some (.fin (z : ℚ)))) = 0 :=
  fracDigits_enIN_int z

/-- C7 counterexample. The part_000 variant's `fmt` only replaces
`null`/`undefined`: a NaN input reaches `toLocaleString` and renders as the
text "NaN", not as the em-dash placeholder. -/
theorem part000_fmt_nan_counterexample :
    Part000.fmt (some .nan) 2 = "NaN" ∧ Part000.fmt (some .nan) 2 ≠ "—" := by
  refine ⟨rfl, by decide⟩

/-- C7 amended. The main dashboard formatters `fmt` and `fint` map
`null`/`undefined` (both modelled by `none`) and NaN to the em-dash
placeholder for every numeric field; the part_000 variant's `fmt` maps only
`null`/`undefined` to the placeholder and renders a NaN input as "NaN". -/
theorem formatter_placeholder (d : ℕ) :
    fmt none d = "—" ∧ fmt (some .nan) d = "—" ∧
    fint none = "—" ∧ fint (some .nan) = "—" ∧
    Part000.fmt none d = "—" ∧ Part000.fmt (some .nan) d = "NaN" :=
  ⟨rfl, rfl, rfl, rfl, rfl, rfl⟩

/-- Witness for C7's amended statement at precision 2. -/
theorem formatter_placeholder_witness :
    fmt none 2 = "—" ∧ fmt (some .nan) 2 = "—" ∧
    fint none = "—" ∧ fint (some .nan) = "—" ∧
    Part000.fmt none 2 = "—" ∧ Part000.fmt (some .nan) 2 = "NaN" :=
  formatter_placeholder 2

/-- C8 counterexample. The delta column of `renderRows` is formatted with
`toFixed(4)`, not 2: a finite delta of `0.5` renders as "0.5000", which has 4
fixed decimal places. -/
theorem renderRows_delta_counterexample :
    List.getD (renderRowCells
        ⟨0, ⟨none, none, some (.fin (1/2)), none, none, none, none, none⟩,
          ⟨none, none, none, none, none, none, none, none⟩⟩) 2 "" = "0.5000" ∧
    fracDigits "0.5000" = 4 ∧ fracDigits "0.5000" ≠ 2 := by
  refine ⟨?_, by decide, by decide⟩
  show toFixedStr (1/2 : ℚ) 4 = "0.5000"
  unfold toFixedStr
  have h1 : ¬((1 : ℚ)/2 < 0) := by norm_num
  have h2 : ⌊|(1 : ℚ)/2| * (10 : ℚ) ^ 4 + 1/2⌋ = (5000 : ℤ) := by
    rw [abs_of_nonneg (by norm_num : (0 : ℚ) ≤ 1/2), Int.floor_eq_iff]
    norm_num
  have h2' : (⌊|(1 : ℚ)/2| * (10 : ℚ) ^ 4 + 1/2⌋).toNat = 5000 := by
    rw [h2]
    rfl
  rw [if_neg h1, h2']
  decide

/-- C8 amended. For finite numeric inputs, the public/js `renderRows`
formats price, iv, theta and vega with exactly 2 fixed decimal places, delta
with 4 and gamma with 6; OI-like integer fields (oi, chgOi, strike), when
integer-valued, render with 0 decimal places via the en-IN locale.  The
part_005 variant is identical except that theta gets 4 decimal places. -/
theorem renderRowCells_precision (cp ci cd cg ct cv pp pi pd pg pt pv : ℚ)
    (zs coi cch poi pch : ℤ) :
    List.map fracDigits (renderRowCells
        ⟨(zs : ℚ),
          ⟨some (.fin cp), some (.fin ci), some (.fin cd), some (.fin cg),
            some (.fin ct), some (.fin cv), some (.fin (coi : ℚ)), some (.fin (cch : ℚ))⟩,
          ⟨some (.fin pp), some (.fin pi), some (.fin pd), some (.fin pg),
            some (.fin pt), some (.fin pv), some (.fin (poi : ℚ)), some (.fin (pch : ℚ))⟩⟩)
      = [2, 2, 4, 6, 2, 2, 0, 0, 0, 0, 0, 2, 6, 4, 2, 2] ∧
    List.map fracDigits (Part005.renderRowCells
        ⟨(zs : ℚ),
          ⟨some (.fin cp), some (.fin ci), some (.fin cd), some (.fin cg),
            some (.fin ct), some (.fin cv), some (.fin (coi : ℚ)), some (.fin (cch : ℚ))⟩,
          ⟨some (.fin pp), some (.fin pi), some (.fin pd), some (.fin pg),
            some (.fin pt), some (.fin pv), some (.fin (poi : ℚ)), some (.fin (pch : ℚ))⟩⟩)
      = [2, 2, 4, 6, 4, 2, 0, 0, 0, 0, 0, 2, 6, 4, 2, 2] := by
  constructor <;>
    simp [renderRowCells, Part005.renderRowCells, jQ, fracDigits_fmt_two,
      fracDigits_fmt_four, fracDigits_fmt_six, fracDigits_fint_int,
      fracDigits_fmt05_two, fracDigits_fmt05_four, fracDigits_fmt05_six,
      fracDigits_int05_int]

/-- Witness for C8's amended statement at concrete field values. -/
theorem renderRowCells_precision_witness :
    List.map fracDigits (renderRowCells
        ⟨((1 : ℤ) : ℚ),
          ⟨some (.fin 0), some (.fin 0), some (.fin 0), some (.fin 0),
            some (.fin 0), some (.fin 0), some (.fin ((2 : ℤ) : ℚ)), some (.fin ((3 : ℤ) : ℚ))⟩,
          ⟨some (.fin 0), some (.fin 0), some (.fin 0), some (.fin 0),
            some (.fin 0), some (.fin 0), some (.fin ((4 : ℤ) : ℚ)), some (.fin ((5 : ℤ) : ℚ))⟩⟩)
      = [2, 2, 4, 6, 2, 2, 0, 0, 0, 0, 0, 2, 6, 4, 2, 2] ∧
    List.map fracDigits (Part005.renderRowCells
        ⟨((1 : ℤ) : ℚ),
          ⟨some (.fin 0), some (.fin 0), some (.fin 0), some (.fin 0),
            some (.fin 0), some (.fin 0), some (.fin ((2 : ℤ) : ℚ)), some (.fin ((3 : ℤ) : ℚ))⟩,
          ⟨some (.fin 0), some (.fin 0), some (.fin 0), some (.fin 0),
            some (.fin 0), some (.fin 0), some (.fin ((4 : ℤ) : ℚ)), some (.fin ((5 : ℤ) : ℚ))⟩⟩)
      = [2, 2, 4, 6, 4, 2, 0, 0, 0, 0, 0, 2, 6, 4, 2, 2] :=
  renderRowCells_precision 0 0 0 0 0 0 0 0 0 0 0 0 1 2 3 4 5
